import Mathlib

/-!
# Verification of the MyAssetSimulator portfolio simulation engine

A shallow embedding, in Lean 4, of the day-by-day portfolio simulation in
`src/app.py`, together with the rolling-return analysis and the Monte Carlo
stress test built on top of it.  Money, prices and share counts are modelled
as exact rationals (`ℚ`); the rolling CAGR, which takes a real power, lives
in `ℝ`.

Conventions of the embedding:
* the pandas `Timestamp.is_month_start` / `is_year_start` accessors used by
  the source are modelled by their documented semantics: calendar
  day-of-month equals 1, resp. month and day both equal 1;
* a price row is an association list from ticker to price, so that the
  source's `if t in row` membership tests are represented faithfully;
* the share dictionary is a total function `String → ℚ` (zero outside the
  configured tickers), updated in the same left-to-right order as the
  source's loops, so dictionary overwrite semantics are preserved.
-/

namespace AssetSim

/-- A calendar date, only as structured as the engine needs: pandas
`Timestamp` components `year`, `month`, `day`. -/
structure Date where
  year : Nat
  month : Nat
  day : Nat
deriving DecidableEq, Repr

/-- Semantics of pandas `Timestamp.is_month_start` (used at `app.py` line
160): true iff the calendar day-of-month is 1. -/
def Date.is_month_start (d : Date) : Bool := d.day == 1

/-- Semantics of pandas `Timestamp.is_year_start` (used at `app.py` line
186): true iff the date is January 1. -/
def Date.is_year_start (d : Date) : Bool := d.month == 1 && d.day == 1

/-- One configured asset: ticker and target weight (already divided by 100,
as `app.py` line 40 stores it). -/
structure Asset where
  ticker : String
  weight : ℚ
deriving DecidableEq, Repr

/-- Rebalance frequency selector (`app.py` line 71). -/
inductive RebalanceMode where
  | monthly
  | yearly
  | hold
deriving DecidableEq, Repr

/-- The scenario configuration collected by the sidebar (`app.py`
lines 16–75), as consumed by the simulation loop. -/
structure Config where
  assets : List Asset
  initial_capital : ℚ
  monthly_cashflow : ℚ
  cash_interest_rate : ℚ
  use_leverage : Bool
  loan_amount : ℚ
  loan_rate : ℚ
  rebalance_mode : RebalanceMode
  threshold_mode : Bool
  threshold_pct : ℚ
deriving Repr

/-- One trading day of input to the engine: the row's date and the
symbol → price mapping for that day. -/
structure DayInput where
  date : Date
  row : List (String × ℚ)
deriving Repr

/-- The engine's mutable state: `current_cash`, the `shares` dictionary and
`total_invested` (`app.py` lines 132–152). -/
structure SimState where
  cash : ℚ
  shares : String → ℚ
  total_invested : ℚ

/-- The record appended to `history` each day (`app.py` line 209): the code
stores only date, net worth, total invested and cash. -/
structure DailyRecord where
  date : Date
  net_worth : ℚ
  total_invested : ℚ
  cash : ℚ
deriving Repr

/-- A placeholder record for out-of-range indexing; never produced by the
engine. -/
def dummyRec : DailyRecord := ⟨⟨0, 0, 0⟩, 0, 0, 0⟩

/-- Price lookup in a day's row: the pandas `t in row` / `row[t]` access
pair, as a single partial lookup. -/
def lookupRow : List (String × ℚ) → String → Option ℚ
  | [], _ => none
  | (k, v) :: rest, t => if t = k then some v else lookupRow rest t

/-- The flat monthly interest charge of the interest-only loan:
`loan_amount * monthly_rate` with `monthly_rate = loan_rate / 12`
(`app.py` lines 151 and 169). -/
def monthlyInterestCharge (cfg : Config) : ℚ :=
  cfg.loan_amount * (cfg.loan_rate / 12)

/-- Step B of the day loop (`app.py` lines 161–169), applied only on
month-start days: add the monthly cash flow to cash, add it to
`total_invested` only when it is positive, and, with leverage on, subtract
the monthly interest from cash.  Returns (new cash, new total_invested). -/
def monthEvent (cfg : Config) (cash ti : ℚ) : ℚ × ℚ :=
  let cash1 := cash + cfg.monthly_cashflow
  let ti1 := if 0 < cfg.monthly_cashflow then ti + cfg.monthly_cashflow else ti
  let cash2 := if cfg.use_leverage then cash1 - monthlyInterestCharge cfg else cash1
  (cash2, ti1)

/-- Steps A and B of the day loop (`app.py` lines 156–169): daily cash
accrual at `cash_interest_rate / 365`, then the month-start events. -/
def stepAB (cfg : Config) (st : SimState) (d : DayInput) : SimState :=
  let cash1 := st.cash + st.cash * (cfg.cash_interest_rate / 365)
  if d.date.is_month_start then
    let ev := monthEvent cfg cash1 st.total_invested
    { st with cash := ev.1, total_invested := ev.2 }
  else
    { st with cash := cash1 }

/-- Step C of the day loop (`app.py` lines 171–178): the market value of the
holdings, summed over the configured tickers, skipping a ticker absent from
the day's row. -/
def stockVal (assets : List Asset) (row : List (String × ℚ)) (shares : String → ℚ) : ℚ :=
  (assets.map (fun a =>
    (lookupRow row a.ticker).elim 0 (fun p => shares a.ticker * p))).sum

/-- Step D of the day loop (`app.py` lines 183–195): the rebalance decision.
Frequency triggers: monthly mode fires on `is_month_start`, yearly mode on
`is_year_start`, buy-and-hold never.  Independently, when the drift
threshold is enabled and total assets are positive, any configured asset
present in the row whose current weight deviates from its target by more
than `threshold_pct` fires the trigger.  The source's loop breaks on the
first offender; `List.any` has the same short-circuit semantics. -/
def doRebalance (cfg : Config) (st : SimState) (d : DayInput) : Bool :=
  let total := st.cash + stockVal cfg.assets d.row st.shares
  let freq :=
    match cfg.rebalance_mode with
    | .monthly => d.date.is_month_start
    | .yearly => d.date.is_year_start
    | .hold => false
  let thresh := cfg.threshold_mode && decide (0 < total) &&
    cfg.assets.any (fun a =>
      (lookupRow d.row a.ticker).elim false (fun p =>
        decide (cfg.threshold_pct < |st.shares a.ticker * p / total - a.weight|)))
  freq || thresh

/-- The stock cost accumulated during rebalance execution (`app.py` lines
199–205): `Σ total_assets * weight` over the assets present in the row. -/
def costStock (assets : List Asset) (row : List (String × ℚ)) (total : ℚ) : ℚ :=
  (assets.map (fun a =>
    if (lookupRow row a.ticker).isSome then total * a.weight else 0)).sum

/-- The share dictionary after rebalance execution (`app.py` lines 200–204):
for each asset present in the row, in configuration order,
`shares[t] := total_assets * weight / price`. -/
def rebalShares (assets : List Asset) (row : List (String × ℚ)) (total : ℚ)
    (shares : String → ℚ) : String → ℚ :=
  assets.foldl (fun f a =>
    (lookupRow row a.ticker).elim f (fun p t =>
      if t = a.ticker then total * a.weight / p else f t)) shares

/-- Step E of the day loop (`app.py` lines 198–206): execute the rebalance,
setting each present asset to its target value and letting cash absorb the
residual. -/
def execRebalance (cfg : Config) (st : SimState) (d : DayInput) (total : ℚ) : SimState :=
  { st with
    shares := rebalShares cfg.assets d.row total st.shares
    cash := total - costStock cfg.assets d.row total }

/-- One full trading day of the engine (`app.py` lines 155–210): cash
accrual, month events, valuation, rebalance decision and execution, record
emission.  The emitted net worth is the pre-rebalance valuation, while the
emitted cash is the post-rebalance cash, exactly as in the source. -/
def simStep (cfg : Config) (st : SimState) (d : DayInput) : SimState × DailyRecord :=
  let stB := stepAB cfg st d
  let total := stB.cash + stockVal cfg.assets d.row stB.shares
  let nw := total - cfg.loan_amount
  let reb := doRebalance cfg stB d
  let stE := if reb && decide (0 < total) then execRebalance cfg stB d total else stB
  (stE, { date := d.date, net_worth := nw, total_invested := stE.total_invested,
          cash := stE.cash })

/-- The day loop (`app.py` lines 155–210): thread the state through the
price rows, emitting one record per row. -/
def runSim (cfg : Config) : SimState → List DayInput → List DailyRecord
  | _, [] => []
  | st, d :: ds =>
    let step := simStep cfg st d
    step.2 :: runSim cfg step.1 ds

/-- The first price of a symbol's column across the table (`app.py` line
146's fallback `data[t].dropna().iloc[0]`; the table is NaN-free after
cleaning, so this is the first row in which the symbol appears). -/
def firstColPrice : List DayInput → String → ℚ
  | [], _ => 0
  | d :: ds, t => (lookupRow d.row t).getD (firstColPrice ds t)

/-- The initialization price of a symbol (`app.py` lines 145–146): the first
row's price, falling back to the first column value when it is missing or
non-positive. -/
def initPrice (days : List DayInput) (t : String) : ℚ :=
  match days with
  | [] => 0
  | d :: _ =>
    (lookupRow d.row t).elim (firstColPrice days t) (fun p =>
      if 0 < p then p else firstColPrice days t)

/-- Sum of the configured asset target weights (fractions). -/
def sumWeights (assets : List Asset) : ℚ := (assets.map Asset.weight).sum

/-- The initial engine state (`app.py` lines 132–152): cash gets the cash
sleeve of `(initial_capital + loan_amount)`, each asset gets
`(initial_capital + loan_amount) * weight / price₀` shares, and
`total_invested` starts at `initial_capital` (the borrowed amount is not
counted as invested capital). -/
def initState (cfg : Config) (days : List DayInput) : SimState where
  cash := (cfg.initial_capital + cfg.loan_amount) * (1 - sumWeights cfg.assets)
  shares := cfg.assets.foldl (fun f a => fun t =>
    if t = a.ticker then
      ((cfg.initial_capital + cfg.loan_amount) * a.weight) / initPrice days a.ticker
    else f t) (fun _ => 0)
  total_invested := cfg.initial_capital

/-- Decidable form of "every configured asset has a positive price in this
row" — the hypothesis under which valuation covers the whole portfolio. -/
def allPresentPos (assets : List Asset) (row : List (String × ℚ)) : Bool :=
  assets.all (fun a =>
    (lookupRow row a.ticker).elim false (fun p => decide (0 < p)))

/-! ## Rolling-return analysis (`app.py` lines 248–267) -/

/-- Whether the rolling analysis can run at all (`app.py` line 249):
`len(df_res) > window_days` with `window_days = roll_years * 252`; otherwise
the source reports insufficient data. -/
def rollingAvailable (recs : List DailyRecord) (roll_years : ℕ) : Bool :=
  roll_years * 252 < recs.length

/-- The rolling-CAGR series (`app.py` lines 250–251): for every index
`i ≥ window` the value `(net_worth[i] / net_worth[i-window]) ^ (1/roll_years) − 1`
(rows below the window are the NaNs dropped by `dropna`), paired with the
row's date; empty when the history is not longer than the window. -/
noncomputable def rollingSeries (recs : List DailyRecord) (roll_years : ℕ) : List (Date × ℝ) :=
  let window := roll_years * 252
  if rollingAvailable recs roll_years then
    (List.range recs.length).filterMap (fun i =>
      if window ≤ i then
        some ((recs.getD i dummyRec).date,
          (((recs.getD i dummyRec).net_worth : ℝ) /
            ((recs.getD (i - window) dummyRec).net_worth : ℝ)) ^ ((1 : ℝ) / roll_years) - 1)
      else none)
  else []

/-! ## Monte Carlo stress test (`app.py` lines 294–322) -/

/-- The configuration the Monte Carlo loop reads. -/
structure MCConfig where
  initial_capital : ℚ
  monthly_cashflow : ℚ
  use_leverage : Bool
  loan_amount : ℚ
  loan_rate : ℚ
deriving Repr

/-- The monthly adjustment applied every 21st simulated day (`app.py` lines
310–312): add the monthly cash flow, and with leverage subtract the flat
interest drag `loan_amount * loan_rate / 12`. -/
def mcAdjust (m : MCConfig) (nav : ℚ) : ℚ :=
  let nav1 := nav + m.monthly_cashflow
  if m.use_leverage then nav1 - m.loan_amount * m.loan_rate / 12 else nav1

/-- The inner loop of one Monte Carlo trial (`app.py` lines 307–316),
consuming the sampled daily returns with the running day index `d`: compound
`nav * (1 + r)`, apply the monthly adjustment when `(d+1) % 21 == 0`, then
check ruin: `nav ≤ 0` truncates the path at `0` and marks the trial failed.
Returns (survived, path after the initial point). -/
def mcRun (m : MCConfig) : ℚ → ℕ → List ℚ → Bool × List ℚ
  | _, _, [] => (true, [])
  | nav, d, r :: rs =>
    let nav1 := nav * (1 + r)
    let nav2 := if (d + 1) % 21 == 0 then mcAdjust m nav1 else nav1
    if nav2 ≤ 0 then (false, [0])
    else
      let rest := mcRun m nav2 (d + 1) rs
      (rest.1, nav2 :: rest.2)

/-- One Monte Carlo trial (`app.py` lines 299–318): start from
`initial_capital` (the path's first point) and run the sampled returns. -/
def mcTrial (m : MCConfig) (rets : List ℚ) : Bool × List ℚ :=
  let run := mcRun m m.initial_capital 0 rets
  (run.1, m.initial_capital :: run.2)

/-- The success counter accumulated over the trials (`app.py` lines
299–318): one per trial that ends with `survived = True`. -/
def mcSuccessCount (m : MCConfig) : List (List ℚ) → ℕ
  | [] => 0
  | r :: rs => (if (mcTrial m r).1 then 1 else 0) + mcSuccessCount m rs

/-- The success rate (`app.py` line 322, before the `* 100` display
scaling): successes divided by the number of trials. -/
def mcSuccessRate (m : MCConfig) (trials : List (List ℚ)) : ℚ :=
  (mcSuccessCount m trials : ℚ) / (trials.length : ℚ)

/-! ## Helper lemmas about the engine -/

theorem rebalShares_not_mem (assets : List Asset) (row : List (String × ℚ)) (total : ℚ)
    (sh : String → ℚ) (t : String) (h : t ∉ assets.map Asset.ticker) :
    rebalShares assets row total sh t = sh t := by
  induction assets generalizing sh with
  | nil => rfl
  | cons a as ih =>
    simp only [List.map_cons, List.mem_cons, not_or] at h
    simp only [rebalShares, List.foldl_cons] at ih ⊢
    rw [ih _ h.2]
    cases hl : lookupRow row a.ticker with
    | none => rfl
    | some p => simp [h.1]

theorem rebalShares_mem (assets : List Asset) (row : List (String × ℚ)) (total : ℚ)
    (sh : String → ℚ) (hnd : (assets.map Asset.ticker).Nodup)
    (a : Asset) (ha : a ∈ assets) (p : ℚ) (hp : lookupRow row a.ticker = some p) :
    rebalShares assets row total sh a.ticker = total * a.weight / p := by
  induction assets generalizing sh with
  | nil => cases ha
  | cons b bs ih =>
    simp only [List.map_cons, List.nodup_cons] at hnd
    rcases List.mem_cons.mp ha with rfl | hmem
    · simp only [rebalShares, List.foldl_cons]
      have hnot := rebalShares_not_mem bs row total
        ((lookupRow row a.ticker).elim sh (fun q t =>
          if t = a.ticker then total * a.weight / q else sh t)) a.ticker hnd.1
      simp only [rebalShares] at hnot
      rw [hnot, hp]
      simp
    · simp only [rebalShares, List.foldl_cons] at ih ⊢
      exact ih _ hnd.2 hmem

theorem allPresentPos_elim (assets : List Asset) (row : List (String × ℚ))
    (h : allPresentPos assets row = true) (a : Asset) (ha : a ∈ assets) :
    ∃ p, lookupRow row a.ticker = some p ∧ 0 < p := by
  rw [allPresentPos, List.all_eq_true] at h
  have := h a ha
  cases hl : lookupRow row a.ticker with
  | none => rw [hl] at this; simp at this
  | some p => rw [hl] at this; simp at this; exact ⟨p, rfl, this⟩

theorem stockVal_rebalShares (assets : List Asset) (row : List (String × ℚ)) (total : ℚ)
    (sh : String → ℚ) (hnd : (assets.map Asset.ticker).Nodup)
    (hpos : allPresentPos assets row = true) :
    stockVal assets row (rebalShares assets row total sh) = costStock assets row total := by
  unfold stockVal costStock
  congr 1
  apply List.map_congr_left
  intro a ha
  obtain ⟨p, hp, hppos⟩ := allPresentPos_elim assets row hpos a ha
  rw [hp, rebalShares_mem assets row total sh hnd a ha p hp]
  simp [div_mul_cancel₀, hppos.ne']

theorem stepAB_shares (cfg : Config) (st : SimState) (d : DayInput) :
    (stepAB cfg st d).shares = st.shares := by
  unfold stepAB
  cases d.date.is_month_start <;> simp

theorem stepAB_cash (cfg : Config) (st : SimState) (d : DayInput) :
    (stepAB cfg st d).cash =
      if d.date.is_month_start then
        (monthEvent cfg (st.cash + st.cash * (cfg.cash_interest_rate / 365)) st.total_invested).1
      else st.cash + st.cash * (cfg.cash_interest_rate / 365) := by
  unfold stepAB
  cases d.date.is_month_start <;> simp

theorem stepAB_total_invested (cfg : Config) (st : SimState) (d : DayInput) :
    (stepAB cfg st d).total_invested =
      st.total_invested +
        (if d.date.is_month_start = true ∧ 0 < cfg.monthly_cashflow then
          cfg.monthly_cashflow else 0) := by
  unfold stepAB monthEvent
  cases hb : d.date.is_month_start <;> by_cases hf : 0 < cfg.monthly_cashflow <;>
    simp [hb, hf]

theorem doRebalance_hold (cfg : Config) (st : SimState) (d : DayInput)
    (h1 : cfg.rebalance_mode = RebalanceMode.hold) (h2 : cfg.threshold_mode = false) :
    doRebalance cfg st d = false := by
  unfold doRebalance
  rw [h1, h2]
  simp

theorem simStep_fst_shares_of_not_rebalance (cfg : Config) (st : SimState) (d : DayInput)
    (h : doRebalance cfg (stepAB cfg st d) d = false) :
    (simStep cfg st d).1.shares = st.shares := by
  simp [simStep, h, stepAB_shares]

theorem simStep_fst_total_invested (cfg : Config) (st : SimState) (d : DayInput) :
    (simStep cfg st d).1.total_invested = (stepAB cfg st d).total_invested := by
  simp only [simStep, execRebalance]
  cases h : (doRebalance cfg (stepAB cfg st d) d &&
      decide (0 < (stepAB cfg st d).cash + stockVal cfg.assets d.row (stepAB cfg st d).shares)) <;>
    simp [h]

theorem simStep_snd_total_invested (cfg : Config) (st : SimState) (d : DayInput) :
    (simStep cfg st d).2.total_invested = (simStep cfg st d).1.total_invested := rfl

theorem simStep_snd_cash (cfg : Config) (st : SimState) (d : DayInput) :
    (simStep cfg st d).2.cash = (simStep cfg st d).1.cash := rfl

theorem simStep_snd_net_worth (cfg : Config) (st : SimState) (d : DayInput) :
    (simStep cfg st d).2.net_worth =
      (stepAB cfg st d).cash + stockVal cfg.assets d.row st.shares - cfg.loan_amount := by
  unfold simStep
  simp [stepAB_shares]

theorem elim_false_eq_true_iff (o : Option ℚ) (f : ℚ → Bool) :
    (o.elim false f = true) ↔ ∃ p, o = some p ∧ f p = true := by
  cases o <;> simp

/-! ## Claim C1 — the liquidity guard

The spec claims a rebalance is forced whenever cash is negative at
valuation, even under `rebalance_frequency = none` with the threshold
disabled.  The day loop (`app.py` lines 183–195) has no such guard: the
decision is frequency-or-threshold only, and never consults cash. -/

/-- A buy-and-hold configuration with the drift threshold disabled. -/
def cfgC1 : Config :=
  { assets := [⟨"A", 1/2⟩], initial_capital := 1000, monthly_cashflow := 0,
    cash_interest_rate := 0, use_leverage := false, loan_amount := 0, loan_rate := 0,
    rebalance_mode := RebalanceMode.hold, threshold_mode := false, threshold_pct := 5/100 }

/-- A state whose cash is already negative. -/
def stC1 : SimState := ⟨-100, fun t => if t = "A" then 2 else 0, 1000⟩

/-- A mid-month trading day pricing the single asset. -/
def dayC1 : DayInput := ⟨⟨2024, 3, 15⟩, [("A", 10)]⟩

/-- C1 counterexample: on a day where cash is negative at valuation time,
with `rebalance_frequency = none` and the threshold disabled, the engine
decides NOT to rebalance and executes no trade — there is no liquidity
guard in the code. -/
theorem claim_C1_counterexample :
    (stepAB cfgC1 stC1 dayC1).cash < 0 ∧
    doRebalance cfgC1 (stepAB cfgC1 stC1 dayC1) dayC1 = false ∧
    (simStep cfgC1 stC1 dayC1).1.shares "A" = stC1.shares "A" := by
  have hreb : doRebalance cfgC1 (stepAB cfgC1 stC1 dayC1) dayC1 = false :=
    doRebalance_hold _ _ _ rfl rfl
  refine ⟨?_, hreb, ?_⟩
  · simp only [stepAB_cash, cfgC1, stC1, dayC1, Date.is_month_start]
    norm_num
  · rw [simStep_fst_shares_of_not_rebalance _ _ _ hreb]

/-- C1 (amended): the engine has no liquidity guard.  Under
`rebalance_frequency = none` with the drift threshold disabled, no rebalance
is ever decided or executed on any day, for every state — in particular even
when cash is negative at valuation. -/
theorem claim_C1_theorem (cfg : Config) (st : SimState) (d : DayInput)
    (h1 : cfg.rebalance_mode = RebalanceMode.hold) (h2 : cfg.threshold_mode = false) :
    doRebalance cfg (stepAB cfg st d) d = false ∧
    ∀ t, (simStep cfg st d).1.shares t = st.shares t := by
  have h := doRebalance_hold cfg (stepAB cfg st d) d h1 h2
  exact ⟨h, fun t => by rw [simStep_fst_shares_of_not_rebalance cfg st d h]⟩

/-- Witness for C1: the amended theorem applied at the concrete
negative-cash scenario. -/
theorem claim_C1_witness :
    doRebalance cfgC1 (stepAB cfgC1 stC1 dayC1) dayC1 = false ∧
    ∀ t, (simStep cfgC1 stC1 dayC1).1.shares t = stC1.shares t :=
  claim_C1_theorem cfgC1 stC1 dayC1 rfl rfl

/-! ## Claim C2 — month/year boundary detection

The spec claims a day is a month boundary iff it is the first trading day
whose calendar month differs from the previous trading day's month.  The
code (`app.py` lines 160 and 186) instead uses pandas `is_month_start` /
`is_year_start`: calendar day-of-month equal to 1 (resp. January 1),
regardless of the previous trading day.  A month whose 1st is a non-trading
day therefore has no boundary at all in the code. -/

/-- A monthly-rebalancing, leveraged configuration with positive monthly
cash flow and zero cash interest. -/
def cfgC2 : Config :=
  { assets := [⟨"A", 1/2⟩], initial_capital := 1000, monthly_cashflow := 100,
    cash_interest_rate := 0, use_leverage := true, loan_amount := 1200, loan_rate := 6/100,
    rebalance_mode := RebalanceMode.monthly, threshold_mode := false, threshold_pct := 5/100 }

/-- An arbitrary running state. -/
def stC2 : SimState := ⟨50, fun t => if t = "A" then 2 else 0, 1000⟩

/-- The last trading day of January. -/
def dayC2prev : DayInput := ⟨⟨2024, 1, 31⟩, [("A", 10)]⟩

/-- The first trading day of February in a table where Feb 1 was not a
trading day. -/
def dayC2 : DayInput := ⟨⟨2024, 2, 2⟩, [("A", 10)]⟩

/-- C2 counterexample: 2024-02-02, the first trading day whose month
differs from the previous trading day's (2024-01-31), is NOT treated as a
month boundary: the positive monthly cash flow is not applied to
`total_invested`, cash receives neither cash flow nor loan interest, and
monthly-mode rebalancing does not fire. -/
theorem claim_C2_counterexample :
    dayC2prev.date.month ≠ dayC2.date.month ∧
    0 < cfgC2.monthly_cashflow ∧
    (simStep cfgC2 stC2 dayC2).1.total_invested = stC2.total_invested ∧
    (simStep cfgC2 stC2 dayC2).1.cash = stC2.cash ∧
    doRebalance cfgC2 (stepAB cfgC2 stC2 dayC2) dayC2 = false := by
  refine ⟨by simp [dayC2prev, dayC2], by norm_num [cfgC2], ?_, ?_, ?_⟩
  · rw [simStep_fst_total_invested, stepAB_total_invested]
    simp [dayC2, Date.is_month_start]
  · have hreb : doRebalance cfgC2 (stepAB cfgC2 stC2 dayC2) dayC2 = false := by
      simp [doRebalance, cfgC2, dayC2, Date.is_month_start]
    simp only [simStep, hreb, Bool.false_and, Bool.false_eq_true, if_false]
    rw [stepAB_cash]
    simp only [dayC2, Date.is_month_start]
    norm_num [stC2, cfgC2]
  · simp [doRebalance, cfgC2, dayC2, Date.is_month_start]

/-- C2 (amended): the engine treats a day as a month boundary iff its
calendar day-of-month is 1, and as a year boundary iff it is January 1,
independently of the previous trading day: the positive monthly cash flow
reaches `total_invested` exactly on day-of-month 1, and (with the threshold
disabled) monthly/yearly rebalancing fires exactly on those days. -/
theorem claim_C2_theorem (cfg : Config) (st : SimState) (d : DayInput)
    (hflow : 0 < cfg.monthly_cashflow) (hth : cfg.threshold_mode = false) :
    ((simStep cfg st d).1.total_invested =
      st.total_invested + (if d.date.day = 1 then cfg.monthly_cashflow else 0)) ∧
    (cfg.rebalance_mode = RebalanceMode.monthly →
      doRebalance cfg st d = (d.date.day == 1)) ∧
    (cfg.rebalance_mode = RebalanceMode.yearly →
      doRebalance cfg st d = (d.date.month == 1 && d.date.day == 1)) := by
  refine ⟨?_, ?_, ?_⟩
  · rw [simStep_fst_total_invested, stepAB_total_invested]
    by_cases hd : d.date.day = 1 <;> simp [Date.is_month_start, hd, hflow]
  · intro hm
    simp [doRebalance, hm, hth, Date.is_month_start]
  · intro hy
    simp [doRebalance, hy, hth, Date.is_year_start]

/-- Witness for C2: the amended theorem applied at the concrete February
scenario. -/
theorem claim_C2_witness :
    ((simStep cfgC2 stC2 dayC2).1.total_invested =
      stC2.total_invested + (if dayC2.date.day = 1 then cfgC2.monthly_cashflow else 0)) ∧
    (cfgC2.rebalance_mode = RebalanceMode.monthly →
      doRebalance cfgC2 stC2 dayC2 = (dayC2.date.day == 1)) ∧
    (cfgC2.rebalance_mode = RebalanceMode.yearly →
      doRebalance cfgC2 stC2 dayC2 = (dayC2.date.month == 1 && dayC2.date.day == 1)) :=
  claim_C2_theorem cfgC2 stC2 dayC2 (by norm_num [cfgC2]) rfl

/-! ## Claim C4 — the buy-and-hold end-to-end scenario -/

/-- The spec's end-to-end scenario configuration: two assets at 50/50 with
no cash sleeve, a million of initial capital, no cash flow, no leverage,
buy-and-hold, threshold disabled.  The cash interest rate is irrelevant
(the cash sleeve is empty) and is left as a parameter. -/
def c4Config (r : ℚ) : Config :=
  { assets := [⟨"A", 1/2⟩, ⟨"B", 1/2⟩], initial_capital := 1000000,
    monthly_cashflow := 0, cash_interest_rate := r, use_leverage := false,
    loan_amount := 0, loan_rate := 0, rebalance_mode := RebalanceMode.hold,
    threshold_mode := false, threshold_pct := 5/100 }

theorem stepAB_zero_cash (cfg : Config) (st : SimState) (d : DayInput)
    (h3 : cfg.monthly_cashflow = 0) (h4 : cfg.use_leverage = false)
    (hc : st.cash = 0) :
    stepAB cfg st d = st := by
  obtain ⟨c, sh, ti⟩ := st
  simp only [SimState.cash] at hc
  subst hc
  unfold stepAB monthEvent
  cases hb : d.date.is_month_start <;> simp [hb, h3, h4]

theorem simStep_buyhold_state (cfg : Config) (st : SimState) (d : DayInput)
    (h1 : cfg.rebalance_mode = RebalanceMode.hold) (h2 : cfg.threshold_mode = false)
    (h3 : cfg.monthly_cashflow = 0) (h4 : cfg.use_leverage = false)
    (hc : st.cash = 0) :
    (simStep cfg st d).1 = st := by
  have hAB := stepAB_zero_cash cfg st d h3 h4 hc
  have hreb := doRebalance_hold cfg (stepAB cfg st d) d h1 h2
  rw [hAB] at hreb
  simp [simStep, hreb, hAB]

theorem runSim_buyhold_getLast (cfg : Config)
    (h1 : cfg.rebalance_mode = RebalanceMode.hold) (h2 : cfg.threshold_mode = false)
    (h3 : cfg.monthly_cashflow = 0) (h4 : cfg.use_leverage = false)
    (st : SimState) (hc : st.cash = 0) (d : DayInput) (ds : List DayInput) :
    (runSim cfg st (d :: ds)).getLast? =
      some (simStep cfg st ((d :: ds).getLast (List.cons_ne_nil d ds))).2 := by
  induction ds generalizing st d with
  | nil => simp [runSim]
  | cons d2 ds ih =>
    have hst := simStep_buyhold_state cfg st d h1 h2 h3 h4 hc
    have hih := ih st hc d2
    rw [List.getLast_cons (List.cons_ne_nil d2 ds)]
    simp only [runSim] at hih ⊢
    rw [hst, List.getLast?_cons_cons]
    exact hih

/-- C4: over any price history whose first row prices the two assets at
`pA`, `pB` and whose last row prices them at `2*pA`, `pB/2`, the spec's
50/50 buy-and-hold scenario ends at net worth exactly 1,250,000, regardless
of the intermediate path (intermediate rows are arbitrary, may even drop
symbols). -/
theorem claim_C4_theorem (r pA pB : ℚ) (hpA : 0 < pA) (hpB : 0 < pB)
    (d0 dN : DayInput) (rest : List DayInput)
    (hA0 : lookupRow d0.row "A" = some pA) (hB0 : lookupRow d0.row "B" = some pB)
    (hdN : (d0 :: rest).getLast (List.cons_ne_nil d0 rest) = dN)
    (hAn : lookupRow dN.row "A" = some (2 * pA))
    (hBn : lookupRow dN.row "B" = some (pB / 2)) :
    ((runSim (c4Config r) (initState (c4Config r) (d0 :: rest)) (d0 :: rest)).getLast?).map
        DailyRecord.net_worth = some 1250000 := by
  have hc : (initState (c4Config r) (d0 :: rest)).cash = 0 := by
    simp [initState, c4Config, sumWeights]
    norm_num
  rw [runSim_buyhold_getLast (c4Config r) rfl rfl rfl rfl _ hc d0 rest, hdN]
  simp only [Option.map_some', Option.some.injEq]
  rw [simStep_snd_net_worth, stepAB_zero_cash (c4Config r) _ dN rfl rfl hc, hc]
  have hshA : (initState (c4Config r) (d0 :: rest)).shares "A" = 500000 / pA := by
    simp only [initState, c4Config, List.foldl_cons, List.foldl_nil]
    simp [initPrice, hA0, if_pos hpA]
    norm_num
  have hshB : (initState (c4Config r) (d0 :: rest)).shares "B" = 500000 / pB := by
    simp only [initState, c4Config, List.foldl_cons, List.foldl_nil]
    simp [initPrice, hB0, if_pos hpB]
    norm_num
  simp only [stockVal, c4Config, List.map_cons, List.map_nil, List.sum_cons,
    List.sum_nil, hAn, hBn, Option.elim_some]
  simp only [c4Config] at hshA hshB
  rw [hshA, hshB]
  have hA2 : pA ≠ 0 := hpA.ne'
  have hB2 : pB ≠ 0 := hpB.ne'
  field_simp
  ring

/-- First scenario day for the C4 witness. -/
def dayC4a : DayInput := ⟨⟨2024, 3, 14⟩, [("A", 100), ("B", 200)]⟩

/-- Last scenario day for the C4 witness: A doubled, B halved. -/
def dayC4b : DayInput := ⟨⟨2024, 3, 15⟩, [("A", 200), ("B", 100)]⟩

/-- Witness for C4: the theorem applied at a concrete two-day history. -/
theorem claim_C4_witness :
    ((runSim (c4Config (3/100)) (initState (c4Config (3/100)) [dayC4a, dayC4b])
        [dayC4a, dayC4b]).getLast?).map DailyRecord.net_worth = some 1250000 :=
  claim_C4_theorem (3/100) 100 200 (by norm_num) (by norm_num) dayC4a dayC4b [dayC4b]
    (by simp [dayC4a, lookupRow]) (by simp [dayC4a, lookupRow]) rfl
    (by simp [dayC4b, lookupRow]; norm_num) (by simp [dayC4b, lookupRow]; norm_num)

/-! ## Claim C5 — interest-only leverage -/

/-- C5: with leverage enabled (the code's only loan mode is interest-only),
every month-boundary event charges exactly `loan_amount * (loan_rate/12)`
against cash with zero principal reduction, the charge never touches
`total_invested` (which changes only by the positive-cash-flow rule), and
the balance subtracted from every emitted net worth is the constant
original `loan_amount` — the balance never amortizes over the run. -/
theorem claim_C5_theorem (cfg : Config) (c ti : ℚ) (st : SimState) (d : DayInput)
    (hlev : cfg.use_leverage = true) :
    (monthEvent cfg c ti).1 =
      c + cfg.monthly_cashflow - cfg.loan_amount * (cfg.loan_rate / 12) ∧
    (monthEvent cfg c ti).2 =
      ti + (if 0 < cfg.monthly_cashflow then cfg.monthly_cashflow else 0) ∧
    (simStep cfg st d).2.net_worth =
      (stepAB cfg st d).cash + stockVal cfg.assets d.row st.shares - cfg.loan_amount := by
  refine ⟨?_, ?_, simStep_snd_net_worth cfg st d⟩
  · simp [monthEvent, hlev, monthlyInterestCharge]
  · by_cases hf : 0 < cfg.monthly_cashflow <;> simp [monthEvent, hf]

/-! ## Claim C3 — the net-worth identity -/

/-- C3: for the record emitted on any day — including a rebalance day,
where the emitted cash is post-trade while the emitted net worth was valued
pre-trade — the net worth equals the emitted cash plus the market value of
the post-trade holdings at that day's prices, minus the loan balance.
Hypotheses: the configured tickers are distinct (the data model's assets
form a set of symbols) and every configured symbol has a positive price in
the day's row. -/
theorem claim_C3_theorem (cfg : Config) (st : SimState) (d : DayInput)
    (hnd : (cfg.assets.map Asset.ticker).Nodup)
    (hpos : allPresentPos cfg.assets d.row = true) :
    (simStep cfg st d).2.net_worth =
      (simStep cfg st d).2.cash +
        stockVal cfg.assets d.row (simStep cfg st d).1.shares - cfg.loan_amount := by
  simp only [simStep, execRebalance]
  cases h : (doRebalance cfg (stepAB cfg st d) d &&
      decide (0 < (stepAB cfg st d).cash + stockVal cfg.assets d.row (stepAB cfg st d).shares))
  · simp [h]
  · simp only [h, if_true]
    rw [stockVal_rebalShares cfg.assets d.row _ (stepAB cfg st d).shares hnd hpos]
    ring

/-- A leveraged two-asset monthly-rebalancing configuration. -/
def cfgC3w : Config :=
  { assets := [⟨"A", 2/5⟩, ⟨"B", 2/5⟩], initial_capital := 1000, monthly_cashflow := 10,
    cash_interest_rate := 0, use_leverage := true, loan_amount := 500, loan_rate := 3/100,
    rebalance_mode := RebalanceMode.monthly, threshold_mode := false, threshold_pct := 5/100 }

/-- A drifted two-asset state. -/
def stC3w : SimState := ⟨100, fun t => if t = "A" then 3 else if t = "B" then 7 else 0, 1000⟩

/-- A month-start trading day pricing both assets. -/
def dayC3w : DayInput := ⟨⟨2024, 4, 1⟩, [("A", 55), ("B", 31)]⟩

/-- Witness for C3: the identity instantiated on a concrete rebalancing
day — a month-start day under monthly rebalancing, with leverage, where a
trade is actually executed between valuation and emission. -/
theorem claim_C3_witness :
    (simStep cfgC3w stC3w dayC3w).2.net_worth =
      (simStep cfgC3w stC3w dayC3w).2.cash +
        stockVal cfgC3w.assets dayC3w.row (simStep cfgC3w stC3w dayC3w).1.shares
        - cfgC3w.loan_amount :=
  claim_C3_theorem cfgC3w stC3w dayC3w (by decide) (by decide)

/-! ## Claim C6 — the drift-threshold check

The spec claims the threshold check also covers the cash sleeve when no
asset triggered.  The code (`app.py` lines 188–195) loops over the assets
only and never inspects the cash weight. -/

/-- Two assets at 30% each, cash target 40%, threshold 5%, buy-and-hold. -/
def cfgC6 : Config :=
  { assets := [⟨"A", 3/10⟩, ⟨"B", 3/10⟩], initial_capital := 100, monthly_cashflow := 0,
    cash_interest_rate := 0, use_leverage := false, loan_amount := 0, loan_rate := 0,
    rebalance_mode := RebalanceMode.hold, threshold_mode := true, threshold_pct := 5/100 }

/-- Cash 48 of 100 total: each asset sits 4 points under target (within the
5% band) while cash sits 8 points above its 40% target (outside it). -/
def stC6 : SimState := ⟨48, fun t => if t = "A" then 26 else if t = "B" then 26 else 0, 100⟩

/-- A mid-month day pricing both assets at 1. -/
def dayC6 : DayInput := ⟨⟨2024, 3, 15⟩, [("A", 1), ("B", 1)]⟩

/-- C6 counterexample: with the threshold enabled, every asset within the
band but the cash weight 8 points off its 40% target — more than
`threshold_pct` — the engine still decides NOT to rebalance: the cash
sleeve is never checked. -/
theorem claim_C6_counterexample :
    cfgC6.threshold_mode = true ∧
    stC6.cash + stockVal cfgC6.assets dayC6.row stC6.shares = 100 ∧
    (∀ a ∈ cfgC6.assets, ∀ p, lookupRow dayC6.row a.ticker = some p →
      |stC6.shares a.ticker * p / 100 - a.weight| ≤ cfgC6.threshold_pct) ∧
    cfgC6.threshold_pct < |stC6.cash / 100 - (1 - sumWeights cfgC6.assets)| ∧
    doRebalance cfgC6 stC6 dayC6 = false := by
  refine ⟨rfl, ?_, ?_, ?_, ?_⟩
  · simp [stC6, stockVal, cfgC6, dayC6, lookupRow]
    norm_num
  · simp only [cfgC6, List.mem_cons, List.not_mem_nil, or_false]
    rintro a (rfl | rfl) p hp <;>
      simp [lookupRow, dayC6] at hp <;> subst hp <;>
      simp [stC6] <;> rw [abs_le] <;> constructor <;> norm_num
  · simp [stC6, cfgC6, sumWeights]
    rw [abs_of_nonneg (by norm_num)]
    norm_num
  · simp [doRebalance, cfgC6, stC6, dayC6, Date.is_month_start, stockVal, lookupRow]
    norm_num
    rw [abs_le]
    norm_num

/-- C6 (amended): with the drift threshold enabled and frequency `none`,
the rebalance decision is true iff total assets are positive and some
configured asset present in the row deviates from its target weight by more
than `threshold_pct` in absolute value.  The check is asset-only and
short-circuits on the first offender; the cash sleeve's weight is never
examined. -/
theorem claim_C6_theorem (cfg : Config) (st : SimState) (d : DayInput)
    (hm : cfg.rebalance_mode = RebalanceMode.hold) (ht : cfg.threshold_mode = true) :
    doRebalance cfg st d = true ↔
      (0 < st.cash + stockVal cfg.assets d.row st.shares ∧
        ∃ a ∈ cfg.assets, ∃ p, lookupRow d.row a.ticker = some p ∧
          cfg.threshold_pct <
            |st.shares a.ticker * p / (st.cash + stockVal cfg.assets d.row st.shares)
              - a.weight|) := by
  unfold doRebalance
  rw [hm, ht]
  simp only [Bool.false_or, Bool.true_and, Bool.and_eq_true, List.any_eq_true,
    decide_eq_true_eq, elim_false_eq_true_iff, and_assoc]

/-- A one-asset configuration whose asset is far off target, for the C6
witness. -/
def cfgC6w : Config :=
  { assets := [⟨"A", 1/2⟩], initial_capital := 100, monthly_cashflow := 0,
    cash_interest_rate := 0, use_leverage := false, loan_amount := 0, loan_rate := 0,
    rebalance_mode := RebalanceMode.hold, threshold_mode := true, threshold_pct := 5/100 }

/-- Witness for C6: the characterization applied at the concrete drifted
configuration. -/
theorem claim_C6_witness :
    doRebalance cfgC6w stC6 dayC6 = true ↔
      (0 < stC6.cash + stockVal cfgC6w.assets dayC6.row stC6.shares ∧
        ∃ a ∈ cfgC6w.assets, ∃ p, lookupRow dayC6.row a.ticker = some p ∧
          cfgC6w.threshold_pct <
            |stC6.shares a.ticker * p / (stC6.cash + stockVal cfgC6w.assets dayC6.row stC6.shares)
              - a.weight|) :=
  claim_C6_theorem cfgC6w stC6 dayC6 rfl rfl

/-! ## Claim C7 — rebalance idempotence -/

/-- C7: applying the rebalance execution step a second time on the same day
at the same prices — with the second application's `total_assets` re-derived
from the rebalanced state — preserves total assets and changes neither cash
nor any share count.  Hypotheses: distinct tickers, every configured symbol
priced positively in the row, and positive total assets (the guard under
which the engine executes a rebalance at all). -/
theorem claim_C7_theorem (cfg : Config) (st st1 : SimState) (d : DayInput)
    (hnd : (cfg.assets.map Asset.ticker).Nodup)
    (hpos : allPresentPos cfg.assets d.row = true)
    (h0 : 0 < st.cash + stockVal cfg.assets d.row st.shares)
    (hst1 : st1 = execRebalance cfg st d (st.cash + stockVal cfg.assets d.row st.shares)) :
    (st1.cash + stockVal cfg.assets d.row st1.shares
        = st.cash + stockVal cfg.assets d.row st.shares) ∧
    0 < st1.cash + stockVal cfg.assets d.row st1.shares ∧
    (execRebalance cfg st1 d (st1.cash + stockVal cfg.assets d.row st1.shares)).cash
        = st1.cash ∧
    ∀ t, (execRebalance cfg st1 d (st1.cash + stockVal cfg.assets d.row st1.shares)).shares t
        = st1.shares t := by
  have htot1 : st1.cash + stockVal cfg.assets d.row st1.shares
      = st.cash + stockVal cfg.assets d.row st.shares := by
    subst hst1
    simp only [execRebalance]
    rw [stockVal_rebalShares cfg.assets d.row _ st.shares hnd hpos]
    ring
  refine ⟨htot1, htot1 ▸ h0, ?_, ?_⟩
  · simp only [execRebalance]
    rw [htot1, hst1]
    simp only [execRebalance]
  · intro t
    simp only [execRebalance, htot1]
    by_cases hmem : t ∈ cfg.assets.map Asset.ticker
    · obtain ⟨a, ha, rfl⟩ := List.mem_map.mp hmem
      obtain ⟨p, hp, hppos⟩ := allPresentPos_elim cfg.assets d.row hpos a ha
      rw [rebalShares_mem cfg.assets d.row _ st1.shares hnd a ha p hp, hst1]
      simp only [execRebalance]
      rw [rebalShares_mem cfg.assets d.row _ st.shares hnd a ha p hp]
    · rw [rebalShares_not_mem cfg.assets d.row _ st1.shares t hmem]

/-- A pre-rebalance state for the idempotence witness. -/
def stC7a : SimState := ⟨100, fun t => if t = "A" then 3 else if t = "B" then 7 else 0, 1000⟩

/-- The state after one rebalance execution from `stC7a`. -/
def stC7b : SimState :=
  execRebalance cfgC3w stC7a dayC3w
    (stC7a.cash + stockVal cfgC3w.assets dayC3w.row stC7a.shares)

/-- Witness for C7: idempotence instantiated at a concrete two-asset state
with positive total assets and both symbols priced. -/
theorem claim_C7_witness :
    (stC7b.cash + stockVal cfgC3w.assets dayC3w.row stC7b.shares
        = stC7a.cash + stockVal cfgC3w.assets dayC3w.row stC7a.shares) ∧
    0 < stC7b.cash + stockVal cfgC3w.assets dayC3w.row stC7b.shares ∧
    (execRebalance cfgC3w stC7b dayC3w
        (stC7b.cash + stockVal cfgC3w.assets dayC3w.row stC7b.shares)).cash = stC7b.cash ∧
    ∀ t, (execRebalance cfgC3w stC7b dayC3w
        (stC7b.cash + stockVal cfgC3w.assets dayC3w.row stC7b.shares)).shares t
      = stC7b.shares t :=
  claim_C7_theorem cfgC3w stC7a stC7b dayC3w (by decide) (by decide)
    (by simp [stC7a, stockVal, cfgC3w, dayC3w, lookupRow]; norm_num) rfl

/-- Witness for C5: the theorem applied at the concrete leveraged
configuration. -/
theorem claim_C5_witness :
    (monthEvent cfgC2 50 1000).1 =
      50 + cfgC2.monthly_cashflow - cfgC2.loan_amount * (cfgC2.loan_rate / 12) ∧
    (monthEvent cfgC2 50 1000).2 =
      1000 + (if 0 < cfgC2.monthly_cashflow then cfgC2.monthly_cashflow else 0) ∧
    (simStep cfgC2 stC2 dayC2).2.net_worth =
      (stepAB cfgC2 stC2 dayC2).cash + stockVal cfgC2.assets dayC2.row stC2.shares
        - cfgC2.loan_amount :=
  claim_C5_theorem cfgC2 50 1000 stC2 dayC2 rfl


/-! ## Claim C8 — the rolling-return window boundary -/

/-- C8: the rolling analysis runs only when the history is strictly longer
than `holding_years * 252` rows; with exactly `window` rows it reports
insufficient data and yields no rolling values, and with `window + 1` rows
it yields exactly one (date, rolling CAGR) point, computed as
`(net_worth[window] / net_worth[0]) ^ (1/holding_years) − 1`. -/
theorem claim_C8_theorem (recs recs2 : List DailyRecord) (y : ℕ)
    (h1 : recs.length = y * 252) (h2 : recs2.length = y * 252 + 1) :
    rollingAvailable recs y = false ∧ rollingSeries recs y = [] ∧
    rollingSeries recs2 y =
      [((recs2.getD (y * 252) dummyRec).date,
        (((recs2.getD (y * 252) dummyRec).net_worth : ℝ) /
          ((recs2.getD 0 dummyRec).net_worth : ℝ)) ^ ((1 : ℝ) / y) - 1)] := by
  have hav : rollingAvailable recs y = false := by
    simp [rollingAvailable, h1]
  have hav2 : rollingAvailable recs2 y = true := by
    simp [rollingAvailable, h2]
  refine ⟨hav, by simp [rollingSeries, hav], ?_⟩
  simp only [rollingSeries, hav2, if_true, h2]
  rw [List.range_succ, List.filterMap_append]
  have hnil : (List.range (y * 252)).filterMap
      (fun i => if y * 252 ≤ i then
        some ((recs2.getD i dummyRec).date,
          (((recs2.getD i dummyRec).net_worth : ℝ) /
            ((recs2.getD (i - y * 252) dummyRec).net_worth : ℝ)) ^ ((1 : ℝ) / y) - 1)
      else none) = [] := by
    rw [List.filterMap_eq_nil_iff]
    intro i hi
    rw [if_neg]
    exact Nat.not_le.mpr (List.mem_range.mp hi)
  rw [hnil]
  simp [Nat.sub_self]

/-- Witness for C8: one holding year (window 252), histories of exactly 252
and 253 records. -/
theorem claim_C8_witness :
    rollingAvailable (List.replicate 252 dummyRec) 1 = false ∧
    rollingSeries (List.replicate 252 dummyRec) 1 = [] ∧
    rollingSeries (List.replicate 253 dummyRec) 1 =
      [(((List.replicate 253 dummyRec).getD (1 * 252) dummyRec).date,
        ((((List.replicate 253 dummyRec).getD (1 * 252) dummyRec).net_worth : ℝ) /
          (((List.replicate 253 dummyRec).getD 0 dummyRec).net_worth : ℝ))
            ^ ((1 : ℝ) / ((1 : ℕ) : ℝ)) - 1)] :=
  claim_C8_theorem (List.replicate 252 dummyRec) (List.replicate 253 dummyRec) 1
    (by rw [List.length_replicate]) (by rw [List.length_replicate])

/-! ## Claim C9 — Monte Carlo ruin detection

The spec claims a −100% sampled day always truncates the trial to 0 and
counts it as a failure.  In the code (`app.py` lines 307–316) the monthly
cash flow is applied to nav *before* the ruin check, so a −100% day landing
on a 21st simulated day with a positive net monthly inflow leaves nav
positive and the trial continues. -/

/-- A Monte Carlo setup with a positive monthly cash flow. -/
def mC9 : MCConfig := ⟨100, 50, false, 0, 0⟩

/-- Twenty-one sampled daily returns whose last (21st) day is −100%. -/
def retsC9 : List ℚ :=
  [0, 0, 0, 0, 0, 0, 0, 0, 0, 0, 0, 0, 0, 0, 0, 0, 0, 0, 0, 0, -1]

/-- C9 counterexample: the sampled returns contain a −100% day, yet the
trial survives: the monthly inflow of 50 lands on the same 21st day, after
the multiplication and before the ruin check, and rescues the nav. -/
theorem claim_C9_counterexample :
    (-1 : ℚ) ∈ retsC9 ∧ (mcTrial mC9 retsC9).1 = true := by
  constructor
  · simp [retsC9]
  · norm_num [mcTrial, mcRun, mC9, retsC9, mcAdjust]

theorem mcAdjust_le (m : MCConfig) (x : ℚ) (hflow : m.monthly_cashflow ≤ 0)
    (hdrag : 0 ≤ m.loan_amount * m.loan_rate) :
    mcAdjust m x ≤ x := by
  have h12 : 0 ≤ m.loan_amount * m.loan_rate / 12 :=
    div_nonneg hdrag (by norm_num)
  unfold mcAdjust
  cases hl : m.use_leverage <;> simp [hl] <;> linarith

theorem mcRun_ruin (m : MCConfig) (hflow : m.monthly_cashflow ≤ 0)
    (hdrag : 0 ≤ m.loan_amount * m.loan_rate) :
    ∀ (rets : List ℚ) (nav : ℚ) (dd : ℕ), (-1 : ℚ) ∈ rets →
      (mcRun m nav dd rets).1 = false := by
  intro rets
  induction rets with
  | nil => intro nav dd h; simp at h
  | cons r rs ih =>
    intro nav dd hmem
    rcases List.mem_cons.mp hmem with rfl | hmem2
    · have hz : nav * (1 + (-1 : ℚ)) = 0 := by ring
      simp only [mcRun, beq_iff_eq, hz]
      by_cases hb : (dd + 1) % 21 = 0
      · rw [if_pos hb, if_pos (mcAdjust_le m 0 hflow hdrag)]
      · rw [if_neg hb, if_pos le_rfl]
    · simp only [mcRun, beq_iff_eq]
      by_cases h2 : (if (dd + 1) % 21 = 0 then mcAdjust m (nav * (1 + r))
          else nav * (1 + r)) ≤ 0
      · rw [if_pos h2]
      · rw [if_neg h2]
        exact ih _ _ hmem2

theorem mcRun_false_getLast (m : MCConfig) :
    ∀ (rets : List ℚ) (nav : ℚ) (dd : ℕ), (mcRun m nav dd rets).1 = false →
      (mcRun m nav dd rets).2.getLast? = some 0 := by
  intro rets
  induction rets with
  | nil => intro nav dd h; simp [mcRun] at h
  | cons r rs ih =>
    intro nav dd h
    simp only [mcRun, beq_iff_eq] at h ⊢
    by_cases h2 : (if (dd + 1) % 21 = 0 then mcAdjust m (nav * (1 + r))
        else nav * (1 + r)) ≤ 0
    · rw [if_pos h2]
      simp
    · rw [if_neg h2] at h ⊢
      dsimp only at h ⊢
      have hlast := ih _ (dd + 1) h
      cases hp : (mcRun m (if (dd + 1) % 21 = 0 then mcAdjust m (nav * (1 + r))
          else nav * (1 + r)) (dd + 1) rs).2 with
      | nil => rw [hp] at hlast; simp at hlast
      | cons a l =>
        rw [hp] at hlast
        rw [List.getLast?_cons_cons]
        exact hlast

theorem mcSuccessCount_eq_countP (m : MCConfig) (trials : List (List ℚ)) :
    mcSuccessCount m trials = trials.countP (fun r => (mcTrial m r).1) := by
  induction trials with
  | nil => rfl
  | cons r rs ih =>
    simp only [mcSuccessCount, ih, List.countP_cons]
    cases h : (mcTrial m r).1 <;> simp [h] <;> omega

/-- C9 (amended): a −100% sampled day zeroes nav at the multiplication
step; whenever the monthly adjustment cannot increase nav (non-positive
monthly cash flow and a non-negative interest drag), the trial is then ruined
at the post-adjustment check: it ends as a failure with its path truncated
at 0.  The success rate is, by the trial loop's accounting, the number of
surviving trials divided by the trial count. -/
theorem claim_C9_theorem (m : MCConfig) (rets : List ℚ) (trials : List (List ℚ))
    (hflow : m.monthly_cashflow ≤ 0) (hdrag : 0 ≤ m.loan_amount * m.loan_rate)
    (hmem : (-1 : ℚ) ∈ rets) :
    (mcTrial m rets).1 = false ∧
    (mcTrial m rets).2.getLast? = some 0 ∧
    mcSuccessRate m trials =
      (trials.countP (fun r => (mcTrial m r).1) : ℚ) / (trials.length : ℚ) := by
  have h1 : (mcRun m m.initial_capital 0 rets).1 = false :=
    mcRun_ruin m hflow hdrag rets m.initial_capital 0 hmem
  refine ⟨by simpa [mcTrial] using h1, ?_, ?_⟩
  · have hlast := mcRun_false_getLast m rets m.initial_capital 0 h1
    simp only [mcTrial]
    cases hp : (mcRun m m.initial_capital 0 rets).2 with
    | nil => rw [hp] at hlast; simp at hlast
    | cons a l =>
      rw [hp] at hlast
      rw [List.getLast?_cons_cons]
      exact hlast
  · simp [mcSuccessRate, mcSuccessCount_eq_countP]

/-- A Monte Carlo setup with no cash flow and no leverage drag, for the C9
witness. -/
def mC9w : MCConfig := ⟨100, 0, false, 0, 0⟩

/-- Witness for C9: the amended theorem applied at a one-day −100% path. -/
theorem claim_C9_witness :
    (mcTrial mC9w [(-1 : ℚ)]).1 = false ∧
    (mcTrial mC9w [(-1 : ℚ)]).2.getLast? = some 0 ∧
    mcSuccessRate mC9w [[(-1 : ℚ)]] =
      (([[(-1 : ℚ)]].countP (fun r => (mcTrial mC9w r).1) : ℕ) : ℚ) / (([[(-1 : ℚ)]].length : ℕ) : ℚ) :=
  claim_C9_theorem mC9w [(-1 : ℚ)] [[(-1 : ℚ)]] (by norm_num [mC9w])
    (by norm_num [mC9w]) (by simp)

/-! ## Claim C10 — total invested capital -/

/-- The number of month-start days in a span of trading days. -/
def countMonthStarts (days : List DayInput) : ℕ :=
  days.countP (fun d => d.date.is_month_start)

theorem runSim_ti_getD (cfg : Config) :
    ∀ (days : List DayInput) (st : SimState) (k : ℕ), k < days.length →
      ((runSim cfg st days).getD k dummyRec).total_invested =
        st.total_invested +
          (if 0 < cfg.monthly_cashflow then
            cfg.monthly_cashflow * (countMonthStarts (days.take (k + 1)) : ℚ) else 0) := by
  intro days
  induction days with
  | nil => intro st k hk; simp at hk
  | cons d ds ih =>
    intro st k hk
    cases k with
    | zero =>
      simp only [runSim, List.getD_cons_zero]
      rw [simStep_snd_total_invested, simStep_fst_total_invested, stepAB_total_invested]
      by_cases hf : 0 < cfg.monthly_cashflow <;>
        cases hb : d.date.is_month_start <;>
        simp [hf, hb, countMonthStarts, List.countP_cons]
    | succ k =>
      have hk2 : k < ds.length := by simpa using hk
      simp only [runSim, List.getD_cons_succ]
      rw [ih (simStep cfg st d).1 k hk2]
      rw [simStep_fst_total_invested, stepAB_total_invested]
      have htake : (d :: ds).take (k + 1 + 1) = d :: ds.take (k + 1) := rfl
      rw [htake]
      by_cases hf : 0 < cfg.monthly_cashflow <;>
        cases hb : d.date.is_month_start <;>
        simp [hf, hb, countMonthStarts, List.countP_cons] <;> push_cast <;> ring

/-- C10: the `total_invested` of the record emitted on day `k` is the
initial capital plus, when the monthly cash flow is positive, the cash flow
times the number of month-start days among the first `k+1` trading days;
consequently the series is monotonically non-decreasing.  Withdrawals (a
non-positive cash flow) never reduce it, and the borrowed `loan_amount`
never enters it. -/
theorem claim_C10_theorem (cfg : Config) (st0 : SimState) (days : List DayInput)
    (j k : ℕ) (hti : st0.total_invested = cfg.initial_capital)
    (hjk : j ≤ k) (hk : k < days.length) :
    ((runSim cfg st0 days).getD k dummyRec).total_invested =
      cfg.initial_capital +
        (if 0 < cfg.monthly_cashflow then
          cfg.monthly_cashflow * (countMonthStarts (days.take (k + 1)) : ℚ) else 0) ∧
    ((runSim cfg st0 days).getD j dummyRec).total_invested ≤
      ((runSim cfg st0 days).getD k dummyRec).total_invested := by
  have hj : j < days.length := lt_of_le_of_lt hjk hk
  have Hk := runSim_ti_getD cfg days st0 k hk
  have Hj := runSim_ti_getD cfg days st0 j hj
  rw [hti] at Hk Hj
  refine ⟨Hk, ?_⟩
  rw [Hk, Hj]
  have hcount : countMonthStarts (days.take (j + 1)) ≤ countMonthStarts (days.take (k + 1)) := by
    unfold countMonthStarts
    have hpre := List.take_prefix (j + 1) (days.take (k + 1))
    rw [List.take_take, Nat.min_eq_left (Nat.succ_le_succ hjk)] at hpre
    exact (hpre.sublist).countP_le _
  by_cases hf : 0 < cfg.monthly_cashflow
  · simp only [hf, if_true]
    have hc : ((countMonthStarts (days.take (j + 1)) : ℕ) : ℚ)
        ≤ ((countMonthStarts (days.take (k + 1)) : ℕ) : ℚ) := Nat.cast_le.mpr hcount
    have := mul_le_mul_of_nonneg_left hc hf.le
    linarith
  · simp [hf]

/-- A positive-cash-flow configuration for the C10 witness. -/
def cfgC10 : Config :=
  { assets := [⟨"A", 1/2⟩], initial_capital := 1000, monthly_cashflow := 100,
    cash_interest_rate := 0, use_leverage := false, loan_amount := 0, loan_rate := 0,
    rebalance_mode := RebalanceMode.hold, threshold_mode := false, threshold_pct := 5/100 }

/-- Two trading days, the second a month start. -/
def daysC10 : List DayInput :=
  [⟨⟨2024, 3, 29⟩, [("A", 10)]⟩, ⟨⟨2024, 4, 1⟩, [("A", 11)]⟩]

/-- Witness for C10: the formula and monotonicity applied on a concrete
two-day run crossing one month start. -/
theorem claim_C10_witness :
    ((runSim cfgC10 (initState cfgC10 daysC10) daysC10).getD 1 dummyRec).total_invested =
      cfgC10.initial_capital +
        (if 0 < cfgC10.monthly_cashflow then
          cfgC10.monthly_cashflow * (countMonthStarts (daysC10.take (1 + 1)) : ℚ) else 0) ∧
    ((runSim cfgC10 (initState cfgC10 daysC10) daysC10).getD 0 dummyRec).total_invested ≤
      ((runSim cfgC10 (initState cfgC10 daysC10) daysC10).getD 1 dummyRec).total_invested :=
  claim_C10_theorem cfgC10 (initState cfgC10 daysC10) daysC10 0 1 rfl
    (by norm_num) (by norm_num [daysC10])

end AssetSim
